import Mathlib

/-!
# Verification of the streaming chat assembler

Shallow embedding of the core of the repository: the `useChat` hook's
`sendMessage` event-fold loop, its abort/error/fallback paths,
`stopStreaming`, `loadConversation` (src hook file), and the SSE line
decoder inside `chatStream` (the API service file).

Conventions:
* JS strings are Lean `String`s; JS `number`s that the core never computes
  with (token counts, years, durations) are `Nat`.
* TS optional fields (`field?:`) are `Option`s; JS string truthiness
  (`s || d`) is modelled by `strOr` / `optOr`; truthiness of an optional
  boolean (`m.isStreaming`) is the test `= some true`.
* React `setX` state updates execute sequentially in a single-threaded
  event loop, so a turn is modelled as a pure function on `ChatState`.
* The stream itself (network, AbortController) is abstracted as a
  `StreamRun`: the list of events delivered before the stream ended,
  was aborted by `stopStreaming`, or failed in transport.
-/

/-- Message role, per the `Message` type in the API types file. -/
inductive Role
  | user
  | assistant
deriving DecidableEq, Repr

/-- Tool call status: `'pending' | 'success' | 'error'` as constructed and
updated by the hook's `tool-call` / `tool-result` cases. -/
inductive ToolStatus
  | pending
  | success
  | error
deriving DecidableEq, Repr

/-- A tool call, with exactly the fields the hook constructs:
`{ toolCallId, toolName, status }`. -/
structure ToolCall where
  toolCallId : String
  toolName : String
  status : ToolStatus
deriving DecidableEq, Repr

/-- `Book` from the API types file (optional numeric `year` as `Nat`). -/
structure Book where
  title : String
  author : String
  isbn : Option String := none
  year : Option Nat := none
  coverUrl : Option String := none
  description : Option String := none
  subjects : Option (List String) := none
deriving DecidableEq, Repr

/-- `MusicTrack` from the API types file (duration in seconds as `Nat`). -/
structure MusicTrack where
  title : String
  duration : Option Nat := none
deriving DecidableEq, Repr

/-- `MusicAlbum` from the API types file (without its literal tag field,
which the tagged union below carries). -/
structure MusicAlbum where
  title : String
  artist : String
  year : Option Nat := none
  label : Option String := none
  coverUrl : Option String := none
  tracks : Option (List MusicTrack) := none
  genres : Option (List String) := none
deriving DecidableEq, Repr

/-- `MusicTrackItem` from the API types file. -/
structure MusicTrackItem where
  title : String
  artist : String
  album : Option String := none
  year : Option Nat := none
  duration : Option Nat := none
  coverUrl : Option String := none
deriving DecidableEq, Repr

/-- `Music = MusicAlbum | MusicTrackItem`, a tagged union on `type`. -/
inductive Music
  | album (a : MusicAlbum)
  | track (t : MusicTrackItem)
deriving DecidableEq, Repr

/-- `Artifacts` from the API types file: `{ books: Book[]; music: Music[] }`. -/
structure Artifacts where
  books : List Book
  music : List Music
deriving DecidableEq, Repr

/-- A chat message as the hook manipulates it: the `Message` shape of the
API types file plus the `toolCalls` field the hook writes (the SDK message
type it imports also carries it).  The `costSummary` field is omitted: the
hook's fold has no `cost` case and never reads or writes it. -/
structure Message where
  id : String
  conversationId : String
  role : Role
  content : String
  artifacts : Option Artifacts := none
  createdAt : Nat
  isStreaming : Option Bool := none
  agentUsed : Option String := none
  modelUsed : Option String := none
  tokensInput : Option Nat := none
  tokensOutput : Option Nat := none
  executionTimeMs : Option Nat := none
  toolCalls : Option (List ToolCall) := none
deriving DecidableEq, Repr

/-- `totalTokens` payload of the `done` event. -/
structure TotalTokens where
  input : Nat
  output : Nat
deriving DecidableEq, Repr

/-- Payload of the `done` event.  `messageId`, `conversationId`,
`totalTokens` and `executionTimeMs` are the fields of `SSEDoneEvent` in the
API types file; `agentUsed` / `modelUsed` are the two further fields the
hook reads from `event.data` (declared in the SDK's event type, which is a
git submodule absent from this tree; the spec's protocol table lists both),
kept optional since the message fields they land in are optional. -/
structure DoneData where
  messageId : String
  conversationId : String
  totalTokens : TotalTokens
  executionTimeMs : Nat
  agentUsed : Option String := none
  modelUsed : Option String := none
deriving DecidableEq, Repr

/-- The SSE events of the protocol, as the discriminated `SSEEvent` union of
the API types file (the `cost` payload is never read by the hook, so it is
not carried). -/
inductive SSEEvent
  | textDelta (delta : String)
  | toolCall (toolCallId : String) (toolName : String)
  | toolResult (toolCallId : String) (success : Bool)
  | artifacts (a : Artifacts)
  | cost
  | done (d : DoneData)
  | errorEv (code : String) (message : String)
deriving DecidableEq, Repr

/-- The reactive state of the hook: `messages`, `isStreaming`,
`conversationId`, `error`. -/
structure ChatState where
  messages : List Message
  isStreaming : Bool
  conversationId : Option String
  error : Option String
deriving DecidableEq, Repr

/-- The local accumulators of one `sendMessage` turn: `fullContent`,
`artifacts`, `toolCalls`, `newConversationId`, `finalMessageId`. -/
structure TurnAcc where
  fullContent : String
  artifacts : Artifacts
  toolCalls : List ToolCall
  newConversationId : Option String
  finalMessageId : Option String
deriving DecidableEq, Repr

/-- JS whitespace for `String.prototype.trim`: space, tab, line and page
separators (the common subset; exotic Unicode spaces do not occur in this
protocol). -/
def isJsWhitespace (c : Char) : Bool :=
  c = ' ' ∨ c = '\t' ∨ c = '\n' ∨ c = '\r' ∨ c = '\x0b' ∨ c = '\x0c'

/-- JS `query.trim()`: strip leading and trailing whitespace. -/
def jsTrim (s : String) : String :=
  ⟨((s.data.dropWhile isJsWhitespace).reverse.dropWhile isJsWhitespace).reverse⟩

/-- JS string-truthiness fallback `s || dflt`. -/
def strOr (s dflt : String) : String :=
  if s = "" then dflt else s

/-- JS truthiness fallback `o || dflt` for a nullable string. -/
def optOr (o : Option String) (dflt : String) : String :=
  match o with
  | none => dflt
  | some s => strOr s dflt

/-- JS truthiness test `if (o)` for a nullable string. -/
def optTruthy (o : Option String) : Bool :=
  match o with
  | none => false
  | some s => s ≠ ""

/-- The shape of every `setMessages(prev => prev.map(...))` updater in the
hook: rewrite exactly the messages whose `id` equals the given key. -/
def updateMsgs (key : String) (f : Message → Message) (msgs : List Message) :
    List Message :=
  msgs.map (fun m => if m.id = key then f m else m)

/-- The in-place update the `done` case applies to the matching placeholder
message (`acc` is the accumulator state after the two id assignments):
server ids with JS-truthy fallbacks, accumulated content and artifacts,
tool calls when any, streaming off, completion metadata. -/
def doneFinalizer (acc : TurnAcc) (d : DoneData) (m : Message) : Message :=
  { m with
    id := optOr acc.finalMessageId m.id,
    conversationId := optOr acc.newConversationId m.conversationId,
    content := acc.fullContent,
    artifacts := some acc.artifacts,
    toolCalls :=
      if acc.toolCalls.length > 0 then some acc.toolCalls else none,
    isStreaming := some false,
    tokensInput := some d.totalTokens.input,
    tokensOutput := some d.totalTokens.output,
    executionTimeMs := some d.executionTimeMs,
    agentUsed := d.agentUsed,
    modelUsed := d.modelUsed }

/-- One iteration of the hook's `for await (const event of stream)` switch:
fold one SSE event into the turn accumulators and the published state.
`Except.error` models the `throw` in the `error` case. -/
def foldEvent (assistantId : String) (acc : TurnAcc) (st : ChatState) :
    SSEEvent → Except String (TurnAcc × ChatState)
  | .textDelta delta =>
    let acc' := { acc with fullContent := acc.fullContent ++ delta }
    .ok (acc', { st with
      messages := updateMsgs assistantId
        (fun m => { m with content := acc'.fullContent }) st.messages })
  | .toolCall toolCallId toolName =>
    let acc' := { acc with
      toolCalls := acc.toolCalls ++ [⟨toolCallId, toolName, .pending⟩] }
    .ok (acc', { st with
      messages := updateMsgs assistantId
        (fun m => { m with toolCalls := some acc'.toolCalls }) st.messages })
  | .toolResult toolCallId success =>
    let acc' := { acc with
      toolCalls := acc.toolCalls.map (fun tc =>
        if tc.toolCallId = toolCallId then
          { tc with status := if success then .success else .error }
        else tc) }
    .ok (acc', { st with
      messages := updateMsgs assistantId
        (fun m => { m with toolCalls := some acc'.toolCalls }) st.messages })
  | .artifacts a =>
    .ok ({ acc with artifacts := a }, st)
  | .cost =>
    .ok (acc, st)
  | .done d =>
    let acc' := { acc with
      newConversationId := some d.conversationId,
      finalMessageId := some d.messageId }
    let st' := { st with
      messages := updateMsgs assistantId (doneFinalizer acc' d) st.messages }
    .ok (acc', { st' with
      conversationId :=
        if optTruthy acc'.newConversationId then acc'.newConversationId
        else st'.conversationId })
  | .errorEv _code message =>
    .error (strOr message "Unknown error from server")

/-- Fold a list of events in arrival order; stop at the first `error` event
(the hook's `throw` leaves the loop) and report its message. -/
def processEvents (assistantId : String) :
    TurnAcc → ChatState → List SSEEvent → TurnAcc × ChatState × Option String
  | acc, st, [] => (acc, st, none)
  | acc, st, ev :: rest =>
    match foldEvent assistantId acc st ev with
    | .ok (acc', st') => processEvents assistantId acc' st' rest
    | .error msg => (acc, st, some msg)

/-- The post-loop fallback of `sendMessage`: if the stream ended without a
`done` event, force `isStreaming` off and attach the accumulated artifacts
(`m.id === assistantId && m.isStreaming` with JS truthiness). -/
def streamEndFallback (assistantId : String) (acc : TurnAcc)
    (st : ChatState) : ChatState :=
  { st with
    messages := st.messages.map (fun m =>
      if m.id = assistantId ∧ m.isStreaming = some true then
        { m with isStreaming := some false, artifacts := some acc.artifacts }
      else m) }

/-- The `AbortError` branch of the catch block: keep the partial content and
append the literal `" [stopped]"`. -/
def abortUpdate (assistantId : String) (st : ChatState) : ChatState :=
  { st with
    messages := updateMsgs assistantId
      (fun m => { m with
        isStreaming := some false,
        content := m.content ++ " [stopped]" }) st.messages }

/-- The non-abort branch of the catch block: set the error flag and replace
the message content with `"Error: " + message`. -/
def errorUpdate (assistantId : String) (errorMessage : String)
    (st : ChatState) : ChatState :=
  { st with
    error := some errorMessage,
    messages := updateMsgs assistantId
      (fun m => { m with
        isStreaming := some false,
        content := "Error: " ++ errorMessage }) st.messages }

/-- The `finally` block: `setIsStreaming(false)` (the abort-controller ref
reset has no counterpart in the pure state). -/
def finallyUpdate (st : ChatState) : ChatState :=
  { st with isStreaming := false }

/-- How one turn's stream ends: the decoder yielded `evs` and then the
source was exhausted; or `stopStreaming` aborted the fetch after `evs`
(the next read throws `AbortError`); or the transport failed after `evs`
with a non-abort error message. -/
inductive StreamRun
  | events (evs : List SSEEvent)
  | abortedAfter (evs : List SSEEvent)
  | failedAfter (evs : List SSEEvent) (message : String)
deriving DecidableEq, Repr

/-- The optimistic user message `sendMessage` appends
(`conversationId: conversationId || ''`). -/
def mkUserMessage (uid : String) (cid : Option String) (query : String)
    (now : Nat) : Message :=
  { id := uid
    conversationId := optOr cid ""
    role := .user
    content := query
    createdAt := now }

/-- The placeholder assistant message `sendMessage` appends
(`content: ''`, `isStreaming: true`). -/
def mkAssistantMessage (aid : String) (cid : Option String) (now : Nat) :
    Message :=
  { id := aid
    conversationId := optOr cid ""
    role := .assistant
    content := ""
    createdAt := now
    isStreaming := some true }

/-- The body of one `sendMessage` turn after the guard: clear the error,
append the optimistic pair, fold the stream's events, then run the
fallback / catch / finally exactly as the hook's try-catch-finally does. -/
def runTurn (assistantId : String) (userMsg assistantMsg : Message)
    (st : ChatState) (run : StreamRun) : ChatState :=
  let st1 : ChatState := { st with error := none }
  let st2 : ChatState := { st1 with
    messages := st1.messages ++ [userMsg, assistantMsg],
    isStreaming := true }
  let acc0 : TurnAcc := {
    fullContent := ""
    artifacts := { books := [], music := [] }
    toolCalls := []
    newConversationId := st.conversationId
    finalMessageId := none }
  match run with
  | .events evs =>
    match processEvents assistantId acc0 st2 evs with
    | (acc, st3, none) => finallyUpdate (streamEndFallback assistantId acc st3)
    | (_, st3, some em) => finallyUpdate (errorUpdate assistantId em st3)
  | .abortedAfter evs =>
    match processEvents assistantId acc0 st2 evs with
    | (_, st3, none) => finallyUpdate (abortUpdate assistantId st3)
    | (_, st3, some em) => finallyUpdate (errorUpdate assistantId em st3)
  | .failedAfter evs em =>
    match processEvents assistantId acc0 st2 evs with
    | (_, st3, none) => finallyUpdate (errorUpdate assistantId em st3)
    | (_, st3, some em0) => finallyUpdate (errorUpdate assistantId em0 st3)

/-- `sendMessage(query)`: the synchronous re-entrancy / empty-query guard
(`if (!query.trim() || isStreaming) return`) and then the turn body.  The
client-generated UUIDs and the clock are parameters. -/
def sendMessage (st : ChatState) (query : String) (uid aid : String)
    (now : Nat) (run : StreamRun) : ChatState :=
  if jsTrim query = "" ∨ st.isStreaming = true then st
  else
    runTurn aid (mkUserMessage uid st.conversationId query now)
      (mkAssistantMessage aid st.conversationId now) st run

/-- `loadConversation(id)`: on a successful fetch replace the history with
the fetched messages (forcing `isStreaming: false` on each) and set the
conversation id; on failure only set the error flag.  (`setError(null)`
runs before the fetch, so the success path also ends with a clear flag.) -/
def loadConversation (st : ChatState) (id : String)
    (result : Except String (List Message)) : ChatState :=
  match result with
  | .ok msgs =>
    { st with
      error := none,
      conversationId := some id,
      messages := msgs.map (fun m => { m with isStreaming := some false }) }
  | .error em => { st with error := some em }

/-- `clearChat()`: reset messages, conversation id and error. -/
def clearChat (st : ChatState) : ChatState :=
  { st with messages := [], conversationId := none, error := none }

/-- The delta carried by a `text-delta` event, `""` for any other event. -/
def deltaText : SSEEvent → String
  | .textDelta d => d
  | _ => ""

/-- Concatenation of a list of strings in order. -/
def joinStr : List String → String
  | [] => ""
  | s :: ss => s ++ joinStr ss

/-- An event is terminal for the fold loop when it is `done` or `error`. -/
def isTerminalEv : SSEEvent → Bool
  | .done _ => true
  | .errorEv _ _ => true
  | _ => false

/-- An event is a `done` event. -/
def isDoneEv : SSEEvent → Bool
  | .done _ => true
  | _ => false

/-- The last message of the history, where the active turn's assistant
placeholder lives. -/
def lastMsg (st : ChatState) : Option Message :=
  st.messages.getLast?

/-- JS `String.prototype.split('\n')` over the character sequence: the list
of newline-separated segments, always non-empty, keeping empty segments. -/
def splitNl : List Char → List (List Char)
  | [] => [[]]
  | c :: cs =>
    if c = '\n' then [] :: splitNl cs
    else
      match splitNl cs with
      | [] => [[c]]
      | l :: ls => (c :: l) :: ls

/-- The six characters of the SSE line marker `"data: "`. -/
def dataMarker : List Char := ['d', 'a', 't', 'a', ':', ' ']

/-- Process one complete line of the `chatStream` read loop: when the line
starts with `"data: "`, JSON-parse the rest of the line and yield the event
(nothing on malformed JSON); any other line yields nothing.  The JSON
parser is an abstract parameter: it returns `none` on malformed input. -/
def decodeLine (parse : List Char → Option SSEEvent) (line : List Char) :
    List SSEEvent :=
  if line.take 6 = dataMarker then
    match parse (line.drop 6) with
    | some e => [e]
    | none => []
  else []

/-- Process a list of complete lines in order. -/
def decodeLines (parse : List Char → Option SSEEvent) :
    List (List Char) → List SSEEvent
  | [] => []
  | l :: ls => decodeLine parse l ++ decodeLines parse ls

/-- The `chatStream` read loop: append each chunk to the buffer, split on
newline, pop the trailing segment back into the buffer
(`buffer = lines.pop() || ''`), process every complete line; at source
exhaustion the buffered partial line is dropped.  Chunks are the decoded
text pieces (`TextDecoder` output) as character sequences. -/
def chatStreamLoop (parse : List Char → Option SSEEvent) :
    List Char → List (List Char) → List SSEEvent
  | _, [] => []
  | buffer, chunk :: chunks =>
    let lines := splitNl (buffer ++ chunk)
    decodeLines parse lines.dropLast
      ++ chatStreamLoop parse (lines.getLast?.getD []) chunks

/-- The events `chatStream` yields for a whole stream: run the loop with an
initially empty buffer. -/
def chatStreamEvents (parse : List Char → Option SSEEvent)
    (chunks : List (List Char)) : List SSEEvent :=
  chatStreamLoop parse [] chunks

/-- Concatenation of the stream's chunks. -/
def joinChunks : List (List Char) → List Char
  | [] => []
  | c :: cs => c ++ joinChunks cs

/-- Modelled from the spec: the decoder's contract as §4.1 states it —
split the concatenation of all chunks on newline, process every complete
(newline-terminated) line in order, and discard the unterminated trailing
segment.  To be compared with `chatStreamEvents`, the loop from the
source. -/
def chatStreamSpecEvents (parse : List Char → Option SSEEvent)
    (chunks : List (List Char)) : List SSEEvent :=
  decodeLines parse (splitNl (joinChunks chunks)).dropLast

/-- A keyed update leaves a list without the key untouched. -/
theorem updateMsgs_no_match (key : String) (f : Message → Message) :
    ∀ msgs : List Message, (∀ m ∈ msgs, m.id ≠ key) →
      updateMsgs key f msgs = msgs := by
  intro msgs
  induction msgs with
  | nil => intro _; rfl
  | cons m rest ih =>
    intro h
    have hm : m.id ≠ key := h m (by simp)
    simp only [updateMsgs, List.map_cons, if_neg hm]
    have := ih (fun x hx => h x (by simp [hx]))
    simpa [updateMsgs] using this

/-- A keyed update on a list holding the key exactly once rewrites exactly
that element. -/
theorem updateMsgs_split (key : String) (f : Message → Message)
    (pre post : List Message) (a : Message)
    (hpre : ∀ m ∈ pre, m.id ≠ key) (hpost : ∀ m ∈ post, m.id ≠ key)
    (ha : a.id = key) :
    updateMsgs key f (pre ++ a :: post) = pre ++ f a :: post := by
  induction pre with
  | nil =>
    simp only [List.nil_append, updateMsgs, List.map_cons, if_pos ha]
    have := updateMsgs_no_match key f post hpost
    simpa [updateMsgs] using this
  | cons p ps ih =>
    have hp : p.id ≠ key := hpre p (by simp)
    simp only [List.cons_append, updateMsgs, List.map_cons, if_neg hp]
    have := ih (fun x hx => hpre x (by simp [hx]))
    simpa [updateMsgs] using this

/-- A keyed update with an idempotent rewrite is idempotent. -/
theorem updateMsgs_idem (key : String) (f : Message → Message)
    (hf : ∀ m, f (f m) = f m) :
    ∀ msgs : List Message,
      updateMsgs key f (updateMsgs key f msgs) = updateMsgs key f msgs := by
  intro msgs
  induction msgs with
  | nil => rfl
  | cons m rest ih =>
    simp only [updateMsgs, List.map_cons] at ih ⊢
    by_cases hm : m.id = key
    · rw [if_pos hm]
      by_cases hfm : (f m).id = key
      · rw [if_pos hfm, hf m, ih]
      · rw [if_neg hfm, ih]
    · rw [if_neg hm, if_neg hm, ih]

/-- A keyed update whose rewrite preserves a projection preserves that
projection across the whole list. -/
theorem updateMsgs_map_proj {α : Type} (proj : Message → α) (key : String)
    (f : Message → Message) (hf : ∀ m, proj (f m) = proj m) :
    ∀ msgs : List Message,
      (updateMsgs key f msgs).map proj = msgs.map proj := by
  intro msgs
  induction msgs with
  | nil => rfl
  | cons m rest ih =>
    simp only [updateMsgs, List.map_cons] at ih ⊢
    by_cases hm : m.id = key
    · rw [if_pos hm, hf m, ih]
    · rw [if_neg hm, ih]

/-- `splitNl` never returns the empty list. -/
theorem splitNl_ne_nil : ∀ l : List Char, splitNl l ≠ [] := by
  intro l
  induction l with
  | nil => simp [splitNl]
  | cons c cs ih =>
    by_cases hc : c = '\n'
    · simp [splitNl, hc]
    · simp only [splitNl, if_neg hc]
      cases h : splitNl cs with
      | nil => simp
      | cons x xs => simp

/-- Splitting a newline-free string yields exactly one segment. -/
theorem splitNl_no_nl : ∀ l : List Char, '\n' ∉ l → splitNl l = [l] := by
  intro l
  induction l with
  | nil => intro _; rfl
  | cons c cs ih =>
    intro h
    have hc : c ≠ '\n' := fun hcc => h (by simp [hcc])
    have hcs : '\n' ∉ cs := fun hin => h (by simp [hin])
    simp [splitNl, hc, ih hcs]

/-- The trailing segment of a newline split is newline-free. -/
theorem splitNl_getLast_no_nl :
    ∀ l : List Char, '\n' ∉ ((splitNl l).getLast?.getD []) := by
  intro l
  induction l with
  | nil => simp [splitNl]
  | cons c cs ih =>
    by_cases hc : c = '\n'
    · simp only [splitNl, if_pos hc]
      cases h : splitNl cs with
      | nil => exact absurd h (splitNl_ne_nil cs)
      | cons x xs =>
        rw [h] at ih
        simpa [List.getLast?_cons_cons] using ih
    · simp only [splitNl, if_neg hc]
      cases h : splitNl cs with
      | nil => exact absurd h (splitNl_ne_nil cs)
      | cons x xs =>
        rw [h] at ih
        cases xs with
        | nil =>
          simp only [List.getLast?_singleton, Option.getD_some] at ih
          simp only [List.getLast?_singleton, Option.getD_some]
          intro hmem
          rcases List.mem_cons.mp hmem with h1 | h2
          · exact hc h1.symm
          · exact ih h2
        | cons y ys =>
          simpa [List.getLast?_cons_cons] using ih

/-- Splitting a concatenation: the complete segments of the left part, then
the split of the leftover glued onto the right part. -/
theorem splitNl_append : ∀ s t : List Char,
    splitNl (s ++ t)
      = (splitNl s).dropLast
        ++ splitNl (((splitNl s).getLast?.getD []) ++ t) := by
  intro s
  induction s with
  | nil => intro t; simp [splitNl]
  | cons c cs ih =>
    intro t
    by_cases hc : c = '\n'
    · subst hc
      have hstep : splitNl ('\n' :: cs ++ t) = [] :: splitNl (cs ++ t) := by
        simp [splitNl]
      have hstep2 : splitNl ('\n' :: cs) = [] :: splitNl cs := by
        simp [splitNl]
      rw [hstep, hstep2, ih t]
      cases h : splitNl cs with
      | nil => exact absurd h (splitNl_ne_nil cs)
      | cons x xs =>
        simp [List.dropLast_cons_of_ne_nil (l := x :: xs) (by simp),
          List.getLast?_cons_cons]
    · have hstep : ∀ u : List Char, splitNl (c :: u)
          = match splitNl u with
            | [] => [[c]]
            | l :: ls => (c :: l) :: ls := by
        intro u
        simp [splitNl, if_neg hc]
      rw [List.cons_append, hstep (cs ++ t), hstep cs]
      cases h : splitNl cs with
      | nil => exact absurd h (splitNl_ne_nil cs)
      | cons x xs =>
        cases xs with
        | nil =>
          have hst := ih t
          rw [h] at hst
          simp only [List.dropLast_single, List.getLast?_singleton,
            Option.getD_some, List.nil_append] at hst
          rw [hst]
          simp only [List.dropLast_single, List.getLast?_singleton,
            Option.getD_some, List.nil_append, List.cons_append]
          rw [hstep (x ++ t)]
        | cons y ys =>
          have hst := ih t
          rw [h] at hst
          simp only [List.dropLast_cons_of_ne_nil (l := y :: ys) (by simp),
            List.getLast?_cons_cons, List.cons_append] at hst
          rw [hst]
          simp [List.dropLast_cons_of_ne_nil (l := y :: ys) (by simp),
            List.getLast?_cons_cons]

/-- Processing lines distributes over concatenation of line lists. -/
theorem decodeLines_append (parse : List Char → Option SSEEvent) :
    ∀ A B : List (List Char),
      decodeLines parse (A ++ B) = decodeLines parse A ++ decodeLines parse B := by
  intro A B
  induction A with
  | nil => rfl
  | cons l ls ih => simp [decodeLines, ih]

/-- The read loop, started on any newline-free buffer, yields exactly the
events of the complete lines of buffer-plus-remaining-input. -/
theorem chatStreamLoop_eq (parse : List Char → Option SSEEvent) :
    ∀ (chunks : List (List Char)) (buffer : List Char), '\n' ∉ buffer →
      chatStreamLoop parse buffer chunks
        = decodeLines parse (splitNl (buffer ++ joinChunks chunks)).dropLast := by
  intro chunks
  induction chunks with
  | nil =>
    intro buffer hb
    simp [chatStreamLoop, joinChunks, splitNl_no_nl buffer hb, List.dropLast_single,
      decodeLines]
  | cons c cs ih =>
    intro buffer hb
    have hbuf' := splitNl_getLast_no_nl (buffer ++ c)
    have hrec := ih ((splitNl (buffer ++ c)).getLast?.getD []) hbuf'
    have hjoin : buffer ++ joinChunks (c :: cs) = (buffer ++ c) ++ joinChunks cs := by
      simp [joinChunks]
    rw [chatStreamLoop, hrec, hjoin, splitNl_append (buffer ++ c) (joinChunks cs)]
    rw [List.dropLast_append_of_ne_nil _ (splitNl_ne_nil _), decodeLines_append]

/-- C7: for every sequence of input chunks and every (abstract, partial in
the mathematical sense) JSON parse function, the decoder yields exactly the
events of the complete newline-terminated lines of the chunk concatenation,
in order: lines starting with `"data: "` are parsed from the rest of the
line and yield an event only when the parse succeeds (malformed JSON and
unrecognized lines yield nothing and do not fail the turn), and the
unterminated trailing segment left at source exhaustion is discarded,
never parsed. -/
theorem chatStreamEvents_eq_spec (parse : List Char → Option SSEEvent)
    (chunks : List (List Char)) :
    chatStreamEvents parse chunks = chatStreamSpecEvents parse chunks := by
  rw [chatStreamEvents, chatStreamSpecEvents,
    chatStreamLoop_eq parse chunks [] (by simp)]
  rfl

/-- Folding a concatenation of event lists: fold the first part; if no
error event stopped it, continue with the second. -/
theorem processEvents_append (aid : String) :
    ∀ (evs1 evs2 : List SSEEvent) (acc : TurnAcc) (st : ChatState),
      processEvents aid acc st (evs1 ++ evs2)
        = match processEvents aid acc st evs1 with
          | (acc', st', none) => processEvents aid acc' st' evs2
          | (acc', st', some em) => (acc', st', some em) := by
  intro evs1
  induction evs1 with
  | nil => intro evs2 acc st; rfl
  | cons ev rest ih =>
    intro evs2 acc st
    simp only [List.cons_append, processEvents]
    cases h : foldEvent aid acc st ev with
    | ok p =>
      cases p with
      | mk acc' st' => exact ih evs2 acc' st'
    | error msg => rfl

/-- While only non-terminal events are folded, the turn keeps this shape:
the accumulated content is the initial content extended by the deltas in
arrival order, the assistant placeholder (keyed by its provisional id,
unique in the history) carries exactly that content, and its streaming
flag, artifacts, role, conversation id and creation time — as well as every
other message and the rest of the chat state — are untouched. -/
theorem processEvents_no_terminal (aid : String) :
    ∀ (evs : List SSEEvent), (∀ e ∈ evs, isTerminalEv e = false) →
    ∀ (acc : TurnAcc) (pre post : List Message) (a : Message)
      (isS : Bool) (cid err : Option String),
      (∀ m ∈ pre, m.id ≠ aid) → (∀ m ∈ post, m.id ≠ aid) →
      a.id = aid → a.content = acc.fullContent →
      ∃ (acc' : TurnAcc) (a' : Message),
        processEvents aid acc ⟨pre ++ a :: post, isS, cid, err⟩ evs
          = (acc', ⟨pre ++ a' :: post, isS, cid, err⟩, none)
        ∧ acc'.fullContent = acc.fullContent ++ joinStr (evs.map deltaText)
        ∧ a'.id = aid ∧ a'.content = acc'.fullContent
        ∧ a'.isStreaming = a.isStreaming ∧ a'.artifacts = a.artifacts
        ∧ a'.role = a.role ∧ a'.conversationId = a.conversationId
        ∧ a'.createdAt = a.createdAt := by
  intro evs
  induction evs with
  | nil =>
    intro _ acc pre post a isS cid err hpre hpost ha hcont
    refine ⟨acc, a, rfl, ?_, ha, hcont, rfl, rfl, rfl, rfl, rfl⟩
    simp [joinStr, String.append_empty]
  | cons ev rest ih =>
    intro hterm acc pre post a isS cid err hpre hpost ha hcont
    have hev : isTerminalEv ev = false := hterm ev (by simp)
    have hrest : ∀ e ∈ rest, isTerminalEv e = false :=
      fun e he => hterm e (by simp [he])
    cases ev with
    | textDelta d =>
      simp only [processEvents, foldEvent,
        updateMsgs_split aid _ pre post a hpre hpost ha]
      obtain ⟨acc', a', heq, hfc, hid, hct, hstr, hart, hrole, hcid, hcr⟩ :=
        ih hrest { acc with fullContent := acc.fullContent ++ d } pre post
          { a with content := acc.fullContent ++ d } isS cid err hpre hpost
          ha rfl
      refine ⟨acc', a', heq, ?_, hid, hct, hstr, hart, hrole, hcid, hcr⟩
      rw [hfc]
      simp [List.map_cons, joinStr, deltaText, String.append_assoc]
    | toolCall tcid tname =>
      simp only [processEvents, foldEvent,
        updateMsgs_split aid _ pre post a hpre hpost ha]
      obtain ⟨acc', a', heq, hfc, hid, hct, hstr, hart, hrole, hcid, hcr⟩ :=
        ih hrest
          { acc with toolCalls := acc.toolCalls ++ [⟨tcid, tname, .pending⟩] }
          pre post
          { a with toolCalls := some (acc.toolCalls ++ [⟨tcid, tname, .pending⟩]) }
          isS cid err hpre hpost ha hcont
      refine ⟨acc', a', heq, ?_, hid, hct, hstr, hart, hrole, hcid, hcr⟩
      rw [hfc]
      simp [List.map_cons, joinStr, deltaText, String.empty_append]
    | toolResult tcid success =>
      simp only [processEvents, foldEvent,
        updateMsgs_split aid _ pre post a hpre hpost ha]
      obtain ⟨acc', a', heq, hfc, hid, hct, hstr, hart, hrole, hcid, hcr⟩ :=
        ih hrest
          { acc with toolCalls := acc.toolCalls.map (fun tc =>
              if tc.toolCallId = tcid then
                { tc with status := if success then .success else .error }
              else tc) }
          pre post
          { a with toolCalls := some (acc.toolCalls.map (fun tc =>
              if tc.toolCallId = tcid then
                { tc with status := if success then .success else .error }
              else tc)) }
          isS cid err hpre hpost ha hcont
      refine ⟨acc', a', heq, ?_, hid, hct, hstr, hart, hrole, hcid, hcr⟩
      rw [hfc]
      simp [List.map_cons, joinStr, deltaText, String.empty_append]
    | artifacts a0 =>
      simp only [processEvents, foldEvent]
      obtain ⟨acc', a', heq, hfc, hid, hct, hstr, hart, hrole, hcid, hcr⟩ :=
        ih hrest { acc with artifacts := a0 } pre post a isS cid err
          hpre hpost ha hcont
      refine ⟨acc', a', heq, ?_, hid, hct, hstr, hart, hrole, hcid, hcr⟩
      rw [hfc]
      simp [List.map_cons, joinStr, deltaText, String.empty_append]
    | cost =>
      simp only [processEvents, foldEvent]
      obtain ⟨acc', a', heq, hfc, hid, hct, hstr, hart, hrole, hcid, hcr⟩ :=
        ih hrest acc pre post a isS cid err hpre hpost ha hcont
      refine ⟨acc', a', heq, ?_, hid, hct, hstr, hart, hrole, hcid, hcr⟩
      rw [hfc]
      simp [List.map_cons, joinStr, deltaText, String.empty_append]
    | done d => simp [isTerminalEv] at hev
    | errorEv code msg => simp [isTerminalEv] at hev

/-- Folding a `done` event on a history holding the placeholder exactly
once: the placeholder is finalized in place — server ids (with JS-truthy
fallbacks), accumulated content, artifacts, tool calls, completion
metadata, streaming flag off — and the active conversation id is set when
the event's is non-empty. -/
theorem foldEvent_done_eq (aid : String) (acc : TurnAcc)
    (pre post : List Message) (a : Message) (isS : Bool)
    (cid err : Option String) (d : DoneData)
    (hpre : ∀ m ∈ pre, m.id ≠ aid) (hpost : ∀ m ∈ post, m.id ≠ aid)
    (ha : a.id = aid) :
    foldEvent aid acc ⟨pre ++ a :: post, isS, cid, err⟩ (.done d)
      = .ok
        ({ acc with
            newConversationId := some d.conversationId,
            finalMessageId := some d.messageId },
         ⟨pre ++
            { a with
              id := strOr d.messageId a.id,
              conversationId := strOr d.conversationId a.conversationId,
              content := acc.fullContent,
              artifacts := some acc.artifacts,
              toolCalls :=
                if acc.toolCalls.length > 0 then some acc.toolCalls else none,
              isStreaming := some false,
              tokensInput := some d.totalTokens.input,
              tokensOutput := some d.totalTokens.output,
              executionTimeMs := some d.executionTimeMs,
              agentUsed := d.agentUsed,
              modelUsed := d.modelUsed } :: post,
          isS,
          if d.conversationId = "" then cid else some d.conversationId,
          err⟩) := by
  simp only [foldEvent, doneFinalizer,
    updateMsgs_split aid _ pre post a hpre hpost ha, optOr, optTruthy, strOr]
  by_cases hcid : d.conversationId = ""
  · simp [hcid]
  · simp [hcid]

/-- If no message in the history carries the fold's key (as after a `done`
replaced the provisional id with a distinct server id), a successful fold
of any further event leaves the message list unchanged. -/
theorem foldEvent_frame_no_key (aid : String) (acc : TurnAcc)
    (st : ChatState) (ev : SSEEvent) (acc' : TurnAcc) (st' : ChatState)
    (hfresh : ∀ m ∈ st.messages, m.id ≠ aid)
    (h : foldEvent aid acc st ev = .ok (acc', st')) :
    st'.messages = st.messages := by
  have hup := updateMsgs_no_match aid
  cases ev with
  | textDelta d =>
    simp only [foldEvent, Except.ok.injEq, Prod.mk.injEq] at h
    rw [← h.2]
    simp [hup _ st.messages hfresh]
  | toolCall tcid tname =>
    simp only [foldEvent, Except.ok.injEq, Prod.mk.injEq] at h
    rw [← h.2]
    simp [hup _ st.messages hfresh]
  | toolResult tcid success =>
    simp only [foldEvent, Except.ok.injEq, Prod.mk.injEq] at h
    rw [← h.2]
    simp [hup _ st.messages hfresh]
  | artifacts a0 =>
    simp only [foldEvent, Except.ok.injEq, Prod.mk.injEq] at h
    rw [← h.2]
  | cost =>
    simp only [foldEvent, Except.ok.injEq, Prod.mk.injEq] at h
    rw [← h.2]
  | done d =>
    simp only [foldEvent, Except.ok.injEq, Prod.mk.injEq] at h
    rw [← h.2]
    simp [hup _ st.messages hfresh]
  | errorEv code msg => simp [foldEvent] at h

/-- A successful fold of any event other than `done` never changes any
message's id: the `done` path is the only one that reassigns ids. -/
theorem foldEvent_preserves_ids (aid : String) (acc : TurnAcc)
    (st : ChatState) (ev : SSEEvent) (acc' : TurnAcc) (st' : ChatState)
    (hev : isDoneEv ev = false)
    (h : foldEvent aid acc st ev = .ok (acc', st')) :
    st'.messages.map Message.id = st.messages.map Message.id := by
  cases ev with
  | textDelta d =>
    simp only [foldEvent, Except.ok.injEq, Prod.mk.injEq] at h
    rw [← h.2]
    apply updateMsgs_map_proj
    intro m
    rfl
  | toolCall tcid tname =>
    simp only [foldEvent, Except.ok.injEq, Prod.mk.injEq] at h
    rw [← h.2]
    apply updateMsgs_map_proj
    intro m
    rfl
  | toolResult tcid success =>
    simp only [foldEvent, Except.ok.injEq, Prod.mk.injEq] at h
    rw [← h.2]
    apply updateMsgs_map_proj
    intro m
    rfl
  | artifacts a0 =>
    simp only [foldEvent, Except.ok.injEq, Prod.mk.injEq] at h
    rw [← h.2]
  | cost =>
    simp only [foldEvent, Except.ok.injEq, Prod.mk.injEq] at h
    rw [← h.2]
  | done d => simp [isDoneEv] at hev
  | errorEv code msg => simp [foldEvent] at h

/-- A successful fold of any non-terminal event never changes any message's
`artifacts` field: the payload only reaches a message at a terminal
update. -/
theorem foldEvent_preserves_artifacts (aid : String) (acc : TurnAcc)
    (st : ChatState) (ev : SSEEvent) (acc' : TurnAcc) (st' : ChatState)
    (hev : isTerminalEv ev = false)
    (h : foldEvent aid acc st ev = .ok (acc', st')) :
    st'.messages.map Message.artifacts = st.messages.map Message.artifacts := by
  cases ev with
  | textDelta d =>
    simp only [foldEvent, Except.ok.injEq, Prod.mk.injEq] at h
    rw [← h.2]
    apply updateMsgs_map_proj
    intro m
    rfl
  | toolCall tcid tname =>
    simp only [foldEvent, Except.ok.injEq, Prod.mk.injEq] at h
    rw [← h.2]
    apply updateMsgs_map_proj
    intro m
    rfl
  | toolResult tcid success =>
    simp only [foldEvent, Except.ok.injEq, Prod.mk.injEq] at h
    rw [← h.2]
    apply updateMsgs_map_proj
    intro m
    rfl
  | artifacts a0 =>
    simp only [foldEvent, Except.ok.injEq, Prod.mk.injEq] at h
    rw [← h.2]
  | cost =>
    simp only [foldEvent, Except.ok.injEq, Prod.mk.injEq] at h
    rw [← h.2]
  | done d => simp [isTerminalEv] at hev
  | errorEv code msg => simp [isTerminalEv] at hev

/-- The in-place finalizer a `done` event applies to a matching message is
idempotent: applying it twice gives the same message as once. -/
theorem doneFinalizer_idem (acc : TurnAcc) (d : DoneData) (m : Message) :
    doneFinalizer acc d (doneFinalizer acc d m) = doneFinalizer acc d m := by
  cases hfm : acc.finalMessageId with
  | none =>
    cases hnc : acc.newConversationId with
    | none => simp [doneFinalizer, hfm, hnc, optOr]
    | some c =>
      by_cases hc : c = "" <;> simp [doneFinalizer, hfm, hnc, optOr, strOr, hc]
  | some s =>
    by_cases hs : s = ""
    · cases hnc : acc.newConversationId with
      | none => simp [doneFinalizer, hfm, hnc, optOr, strOr, hs]
      | some c =>
        by_cases hc : c = "" <;>
          simp [doneFinalizer, hfm, hnc, optOr, strOr, hs, hc]
    · cases hnc : acc.newConversationId with
      | none => simp [doneFinalizer, hfm, hnc, optOr, strOr, hs]
      | some c =>
        by_cases hc : c = "" <;>
          simp [doneFinalizer, hfm, hnc, optOr, strOr, hs, hc]

/-- Replaying the very same `done` event is a complete no-op on both the
accumulators and the chat state. -/
theorem foldEvent_done_idem (aid : String) (acc : TurnAcc) (st : ChatState)
    (d : DoneData) (acc' : TurnAcc) (st' : ChatState)
    (h : foldEvent aid acc st (.done d) = .ok (acc', st')) :
    foldEvent aid acc' st' (.done d) = .ok (acc', st') := by
  obtain ⟨fc, art, tcs, ncid, fmid⟩ := acc
  obtain ⟨msgs, isS, scid, serr⟩ := st
  simp only [foldEvent, Except.ok.injEq, Prod.mk.injEq] at h
  obtain ⟨hacc, hst⟩ := h
  subst hacc hst
  simp only [foldEvent, Except.ok.injEq, Prod.mk.injEq, ChatState.mk.injEq]
  refine ⟨trivial, ?_, trivial, ?_, trivial⟩
  · exact updateMsgs_idem aid _ (doneFinalizer_idem _ d) msgs
  · by_cases hcid : optTruthy (some d.conversationId) = true
    · simp [hcid]
    · simp only [Bool.not_eq_true] at hcid
      simp [hcid]

/-- The stream-end fallback is a no-op when no message is both keyed by the
placeholder id and still streaming (in particular after a `done` or
`error`/abort update switched the flag off, or replaced the id). -/
theorem streamEndFallback_no_match (aid : String) (acc : TurnAcc)
    (st : ChatState)
    (h : ∀ m ∈ st.messages, ¬(m.id = aid ∧ m.isStreaming = some true)) :
    streamEndFallback aid acc st = st := by
  obtain ⟨msgs, isS, cid, err⟩ := st
  simp only [streamEndFallback, ChatState.mk.injEq, and_true, true_and]
  simp only at h
  induction msgs with
  | nil => rfl
  | cons m rest ih =>
    have hm := h m (by simp)
    simp only [List.map_cons, if_neg hm]
    rw [ih (fun x hx => h x (by simp [hx]))]

/-- The stream-end fallback on a history holding exactly one still-streaming
placeholder: that message gets `isStreaming := false` and the accumulated
artifacts; everything else is untouched. -/
theorem streamEndFallback_split (aid : String) (acc : TurnAcc)
    (pre post : List Message) (a : Message) (isS : Bool)
    (cid err : Option String)
    (hpre : ∀ m ∈ pre, ¬(m.id = aid ∧ m.isStreaming = some true))
    (hpost : ∀ m ∈ post, ¬(m.id = aid ∧ m.isStreaming = some true))
    (ha : a.id = aid) (hstr : a.isStreaming = some true) :
    streamEndFallback aid acc ⟨pre ++ a :: post, isS, cid, err⟩
      = ⟨pre ++
          { a with isStreaming := some false, artifacts := some acc.artifacts }
            :: post,
         isS, cid, err⟩ := by
  simp only [streamEndFallback, ChatState.mk.injEq, and_true, true_and]
  induction pre with
  | nil =>
    simp only [List.nil_append, List.map_cons, if_pos (And.intro ha hstr),
      List.cons.injEq, true_and]
    induction post with
    | nil => rfl
    | cons p ps ih =>
      have hp := hpost p (by simp)
      simp only [List.map_cons, if_neg hp]
      rw [ih (fun x hx => hpost x (by simp [hx]))]
  | cons p ps ih =>
    have hp := hpre p (by simp)
    simp only [List.cons_append, List.map_cons, if_neg hp]
    rw [ih (fun x hx => hpre x (by simp [hx]))]

/-- Unfolding the `sendMessage` guard when it passes: a non-empty trimmed
query and no turn in flight run the turn body. -/
theorem sendMessage_run (st : ChatState) (query uid aid : String) (now : Nat)
    (run : StreamRun) (hq : jsTrim query ≠ "") (hs : st.isStreaming = false) :
    sendMessage st query uid aid now run
      = runTurn aid (mkUserMessage uid st.conversationId query now)
          (mkAssistantMessage aid st.conversationId now) st run := by
  simp [sendMessage, hq, hs]

/-- Concatenating the deltas of a pure text-delta event list gives back the
concatenation of the delta strings. -/
theorem joinStr_map_deltaText (ds : List String) :
    joinStr ((ds.map SSEEvent.textDelta).map deltaText) = joinStr ds := by
  induction ds with
  | nil => rfl
  | cons d rest ih =>
    simp only [List.map_map] at ih
    simp [joinStr, deltaText, ih]

/-- The stream-end fallback never changes any message's id. -/
theorem streamEndFallback_preserves_ids (aid : String) (acc : TurnAcc)
    (st : ChatState) :
    (streamEndFallback aid acc st).messages.map Message.id
      = st.messages.map Message.id := by
  obtain ⟨msgs, isS, cid, err⟩ := st
  simp only [streamEndFallback]
  induction msgs with
  | nil => rfl
  | cons m rest ih =>
    simp only [List.map_cons] at ih ⊢
    by_cases hm : m.id = aid ∧ m.isStreaming = some true
    · rw [if_pos hm]
      simpa using ih
    · rw [if_neg hm]
      simpa using ih

/-- Common shape of a turn after the optimistic append, while the stream
has produced only non-terminal events: the accumulators and the published
history track the deltas, with the placeholder still last and still
streaming. -/
theorem turn_setup (aid uid : String) (msgs : List Message)
    (cid : Option String) (query : String) (now : Nat)
    (evs : List SSEEvent)
    (hfresh : ∀ m ∈ msgs, m.id ≠ aid) (huid : uid ≠ aid)
    (hterm : ∀ e ∈ evs, isTerminalEv e = false) :
    ∃ (acc' : TurnAcc) (a' : Message),
      processEvents aid ⟨"", ⟨[], []⟩, [], cid, none⟩
        ⟨msgs ++ [mkUserMessage uid cid query now,
                  mkAssistantMessage aid cid now],
         true, cid, none⟩ evs
        = (acc',
           ⟨(msgs ++ [mkUserMessage uid cid query now]) ++ a' :: [],
            true, cid, none⟩,
           none)
      ∧ acc'.fullContent = joinStr (evs.map deltaText)
      ∧ a'.id = aid ∧ a'.content = acc'.fullContent
      ∧ a'.isStreaming = some true
      ∧ (∀ m ∈ msgs ++ [mkUserMessage uid cid query now], m.id ≠ aid) := by
  have hpre : ∀ m ∈ msgs ++ [mkUserMessage uid cid query now], m.id ≠ aid := by
    intro m hm
    rcases List.mem_append.mp hm with h | h
    · exact hfresh m h
    · simp only [List.mem_singleton] at h
      subst h
      simpa [mkUserMessage] using huid
  have hpost : ∀ m ∈ ([] : List Message), m.id ≠ aid := by simp
  have hmsgs : msgs ++ [mkUserMessage uid cid query now,
      mkAssistantMessage aid cid now]
      = (msgs ++ [mkUserMessage uid cid query now])
        ++ mkAssistantMessage aid cid now :: [] := by
    simp
  rw [hmsgs]
  obtain ⟨acc', a', heq, hfc, hid, hct, hstr, hart, hrole, hcid, hcr⟩ :=
    processEvents_no_terminal aid evs hterm ⟨"", ⟨[], []⟩, [], cid, none⟩
      (msgs ++ [mkUserMessage uid cid query now]) []
      (mkAssistantMessage aid cid now) true cid none hpre hpost rfl rfl
  refine ⟨acc', a', heq, ?_, hid, hct, ?_, hpre⟩
  · rw [hfc]
    exact String.empty_append _
  · rw [hstr]
    rfl

/-- C9: `sendMessage(query)` is a complete no-op — identical state, hence
no appended messages and no history-length change — whenever the query is
empty after trimming or a turn is already in flight, for every possible
stream outcome (the guard decides before any network activity starts). -/
theorem claim_C9_sendMessage_guard_noop (st : ChatState)
    (query uid aid : String) (now : Nat) (run : StreamRun)
    (h : jsTrim query = "" ∨ st.isStreaming = true) :
    sendMessage st query uid aid now run = st
    ∧ (sendMessage st query uid aid now run).messages.length
        = st.messages.length := by
  have heq : sendMessage st query uid aid now run = st := by
    rcases h with h | h
    · simp [sendMessage, h]
    · simp [sendMessage, h]
  exact ⟨heq, by rw [heq]⟩

/-- Witness for C9: a second call while `isStreaming` is true returns the
state unchanged. -/
theorem claim_C9_witness :
    sendMessage ⟨[], true, none, none⟩ "Hi" "u1" "a1" 0 (.events [])
      = ⟨[], true, none, none⟩ :=
  (claim_C9_sendMessage_guard_noop ⟨[], true, none, none⟩ "Hi" "u1" "a1" 0
    (.events []) (Or.inr rfl)).1

/-- C8: `loadConversation(id)` on a successful fetch replaces the history
wholesale with the fetched messages, forcing `isStreaming := false` on
every loaded message, and records the conversation id; on failure it only
sets the error flag, leaving the history and the active conversation id
exactly as they were. -/
theorem claim_C8_loadConversation (st : ChatState) (id : String) :
    (∀ msgs : List Message,
      loadConversation st id (.ok msgs)
        = { st with
            error := none,
            conversationId := some id,
            messages :=
              msgs.map (fun m => { m with isStreaming := some false }) })
    ∧ (∀ em : String,
        loadConversation st id (.error em) = { st with error := some em }
        ∧ (loadConversation st id (.error em)).messages = st.messages
        ∧ (loadConversation st id (.error em)).conversationId
            = st.conversationId) :=
  ⟨fun _ => rfl, fun _ => ⟨rfl, rfl, rfl⟩⟩

/-- C1 as stated is refuted: folding a `tool-call` event whose
`toolCallId` is already present does not overwrite in place — the code
appends unconditionally, leaving two entries with the same id (both in the
accumulator and on the published assistant message). -/
theorem claim_C1_counterexample :
    (processEvents "a1" ⟨"", ⟨[], []⟩, [], none, none⟩
        ⟨[{ id := "a1", conversationId := "", role := .assistant,
            content := "", createdAt := 0, isStreaming := some true }],
         true, none, none⟩
        [.toolCall "t1" "search", .toolCall "t1" "search"]).1.toolCalls
      = [⟨"t1", "search", .pending⟩, ⟨"t1", "search", .pending⟩]
    ∧ (lastMsg (processEvents "a1" ⟨"", ⟨[], []⟩, [], none, none⟩
        ⟨[{ id := "a1", conversationId := "", role := .assistant,
            content := "", createdAt := 0, isStreaming := some true }],
         true, none, none⟩
        [.toolCall "t1" "search", .toolCall "t1" "search"]).2.1).map
          Message.toolCalls
      = some (some [⟨"t1", "search", .pending⟩, ⟨"t1", "search", .pending⟩]) := by
  constructor
  · rfl
  · rfl

/-- C1 amended: the tool-call list never shrinks — a `tool-call` event
always appends one new pending entry (even for a duplicate id, which
yields two entries with the same `toolCallId` rather than an in-place
overwrite), a `tool-result` event never changes the list's length, and
every other event leaves the list untouched. -/
theorem claim_C1_amended_toolCalls_growth (aid : String) (acc : TurnAcc)
    (st : ChatState) (ev : SSEEvent) (acc' : TurnAcc) (st' : ChatState)
    (h : foldEvent aid acc st ev = .ok (acc', st')) :
    acc.toolCalls.length ≤ acc'.toolCalls.length
    ∧ (∀ tcid success, ev = .toolResult tcid success →
        acc'.toolCalls.length = acc.toolCalls.length)
    ∧ (∀ tcid tname, ev = .toolCall tcid tname →
        acc'.toolCalls = acc.toolCalls ++ [⟨tcid, tname, .pending⟩]
        ∧ st'.messages = updateMsgs aid
            (fun m => { m with toolCalls := some acc'.toolCalls })
            st.messages) := by
  cases ev with
  | textDelta d =>
    simp only [foldEvent, Except.ok.injEq, Prod.mk.injEq] at h
    refine ⟨?_, ?_, ?_⟩
    · rw [← h.1]
    · intro tcid success hne
      cases hne
    · intro tcid tname hne
      cases hne
  | toolCall tcid tname =>
    simp only [foldEvent, Except.ok.injEq, Prod.mk.injEq] at h
    refine ⟨?_, ?_, ?_⟩
    · rw [← h.1]
      simp
    · intro tcid' success' hne
      cases hne
    · intro tcid' tname' hev
      cases hev
      refine ⟨by rw [← h.1], ?_⟩
      rw [← h.2, ← h.1]
  | toolResult tcid success =>
    simp only [foldEvent, Except.ok.injEq, Prod.mk.injEq] at h
    refine ⟨?_, ?_, ?_⟩
    · rw [← h.1]
      simp
    · intro tcid' success' hev
      cases hev
      rw [← h.1]
      simp
    · intro tcid' tname' hne
      cases hne
  | artifacts a0 =>
    simp only [foldEvent, Except.ok.injEq, Prod.mk.injEq] at h
    refine ⟨?_, ?_, ?_⟩
    · rw [← h.1]
    · intro tcid success hne
      cases hne
    · intro tcid tname hne
      cases hne
  | cost =>
    simp only [foldEvent, Except.ok.injEq, Prod.mk.injEq] at h
    refine ⟨?_, ?_, ?_⟩
    · rw [← h.1]
    · intro tcid success hne
      cases hne
    · intro tcid tname hne
      cases hne
  | done d =>
    simp only [foldEvent, Except.ok.injEq, Prod.mk.injEq] at h
    refine ⟨?_, ?_, ?_⟩
    · rw [← h.1]
    · intro tcid success hne
      cases hne
    · intro tcid tname hne
      cases hne
  | errorEv code msg => simp [foldEvent] at h

/-- Witness for the amended C1: a concrete `tool-call` fold appends its
pending entry. -/
theorem claim_C1_amended_witness :
    (⟨"", ⟨[], []⟩, [⟨"t1", "search", .pending⟩], none, none⟩ : TurnAcc).toolCalls
      = (⟨"", ⟨[], []⟩, [], none, none⟩ : TurnAcc).toolCalls
        ++ [⟨"t1", "search", .pending⟩] :=
  ((claim_C1_amended_toolCalls_growth "a1" ⟨"", ⟨[], []⟩, [], none, none⟩
      ⟨[], false, none, none⟩ (.toolCall "t1" "search")
      ⟨"", ⟨[], []⟩, [⟨"t1", "search", .pending⟩], none, none⟩
      ⟨[], false, none, none⟩ rfl).2.2 "t1" "search" rfl).1

/-- C4 as stated is refuted: after a terminal `done` event has been folded,
folding a further `done` event from the same stream does change the chat
state — a second done carrying a different conversationId overwrites the
active conversation id the first one set. -/
theorem claim_C4_counterexample :
    (processEvents "a1" ⟨"", ⟨[], []⟩, [], none, none⟩
        ⟨[{ id := "a1", conversationId := "", role := .assistant,
            content := "", createdAt := 0, isStreaming := some true }],
         true, none, none⟩
        [.done ⟨"m1", "c1", ⟨0, 0⟩, 0, none, none⟩]).2.1.conversationId
      = some "c1"
    ∧ (processEvents "a1" ⟨"", ⟨[], []⟩, [], none, none⟩
        ⟨[{ id := "a1", conversationId := "", role := .assistant,
            content := "", createdAt := 0, isStreaming := some true }],
         true, none, none⟩
        [.done ⟨"m1", "c1", ⟨0, 0⟩, 0, none, none⟩,
         .done ⟨"m2", "c2", ⟨0, 0⟩, 0, none, none⟩]).2.1.conversationId
      = some "c2" := by
  exact ⟨rfl, rfl⟩

/-- C4 amended: after a `done` event has been folded, the message list can
no longer change — replaying the very same `done` event is a complete
no-op on accumulators and chat state alike, and once the placeholder id is
gone from the history (the folded done carried a server id distinct from
the provisional one), folding any further event, and even the error /
abort catch updates, leave every message unchanged; only the active
conversation id (by a later done with a different id) and the error flag
(by a later error event) can still move. -/
theorem claim_C4_amended_post_terminal (aid : String) :
    (∀ (acc : TurnAcc) (st : ChatState) (d : DoneData) (acc' : TurnAcc)
        (st' : ChatState),
      foldEvent aid acc st (.done d) = .ok (acc', st') →
      foldEvent aid acc' st' (.done d) = .ok (acc', st'))
    ∧ (∀ (acc : TurnAcc) (st : ChatState) (ev : SSEEvent) (acc' : TurnAcc)
        (st' : ChatState),
        (∀ m ∈ st.messages, m.id ≠ aid) →
        foldEvent aid acc st ev = .ok (acc', st') →
        st'.messages = st.messages)
    ∧ (∀ (em : String) (st : ChatState),
        (∀ m ∈ st.messages, m.id ≠ aid) →
        (errorUpdate aid em st).messages = st.messages
        ∧ (abortUpdate aid st).messages = st.messages) := by
  refine ⟨fun acc st d acc' st' h => foldEvent_done_idem aid acc st d acc' st' h,
    fun acc st ev acc' st' hfresh h =>
      foldEvent_frame_no_key aid acc st ev acc' st' hfresh h,
    fun em st hfresh => ⟨?_, ?_⟩⟩
  · simp only [errorUpdate]
    exact updateMsgs_no_match aid _ st.messages hfresh
  · simp only [abortUpdate]
    exact updateMsgs_no_match aid _ st.messages hfresh

/-- Witness for the amended C4: replaying a concrete `done` event leaves
the concrete finalized state untouched. -/
theorem claim_C4_amended_witness :
    foldEvent "a1"
      ⟨"", ⟨[], []⟩, [], some "c1", some "m1"⟩
      ⟨[{ id := "m1", conversationId := "c1", role := .assistant,
          content := "", artifacts := some ⟨[], []⟩, createdAt := 0,
          isStreaming := some false, tokensInput := some 0,
          tokensOutput := some 0, executionTimeMs := some 0 }],
       true, some "c1", none⟩
      (.done ⟨"m1", "c1", ⟨0, 0⟩, 0, none, none⟩)
      = .ok
        (⟨"", ⟨[], []⟩, [], some "c1", some "m1"⟩,
         ⟨[{ id := "m1", conversationId := "c1", role := .assistant,
             content := "", artifacts := some ⟨[], []⟩, createdAt := 0,
             isStreaming := some false, tokensInput := some 0,
             tokensOutput := some 0, executionTimeMs := some 0 }],
          true, some "c1", none⟩) :=
  (claim_C4_amended_post_terminal "a1").1
    ⟨"", ⟨[], []⟩, [], some "c1", some "m1"⟩
    ⟨[{ id := "a1", conversationId := "", role := .assistant,
        content := "", createdAt := 0, isStreaming := some true }],
     true, none, none⟩
    ⟨"m1", "c1", ⟨0, 0⟩, 0, none, none⟩
    ⟨"", ⟨[], []⟩, [], some "c1", some "m1"⟩
    ⟨[{ id := "m1", conversationId := "c1", role := .assistant,
        content := "", artifacts := some ⟨[], []⟩, createdAt := 0,
        isStreaming := some false, tokensInput := some 0,
        tokensOutput := some 0, executionTimeMs := some 0 }],
     true, some "c1", none⟩
    rfl

/-- C10: an `artifacts` event only loads the local accumulator — the chat
state, messages included, is returned unchanged; no non-terminal fold ever
changes any message's `artifacts` field; the payload is attached to the
placeholder exactly at the terminal update on the `done` path and on the
stream-end-without-done fallback path; and the abort and error catch
updates never touch any message's `artifacts` field. -/
theorem claim_C10_artifacts_only_at_terminal :
    (∀ (aid : String) (acc : TurnAcc) (st : ChatState) (a0 : Artifacts),
      foldEvent aid acc st (.artifacts a0) = .ok ({ acc with artifacts := a0 }, st))
    ∧ (∀ (aid : String) (acc : TurnAcc) (st : ChatState) (ev : SSEEvent)
        (acc' : TurnAcc) (st' : ChatState),
        isTerminalEv ev = false →
        foldEvent aid acc st ev = .ok (acc', st') →
        st'.messages.map Message.artifacts = st.messages.map Message.artifacts)
    ∧ (∀ (aid : String) (acc : TurnAcc) (pre post : List Message)
        (a : Message) (isS : Bool) (cid err : Option String) (d : DoneData),
        (∀ m ∈ pre, m.id ≠ aid) → (∀ m ∈ post, m.id ≠ aid) → a.id = aid →
        ∃ (accD : TurnAcc) (aD : Message),
          foldEvent aid acc ⟨pre ++ a :: post, isS, cid, err⟩ (.done d)
            = .ok (accD,
                ⟨pre ++ aD :: post, isS,
                 if d.conversationId = "" then cid else some d.conversationId,
                 err⟩)
          ∧ aD.artifacts = some acc.artifacts)
    ∧ (∀ (aid : String) (acc : TurnAcc) (pre post : List Message)
        (a : Message) (isS : Bool) (cid err : Option String),
        (∀ m ∈ pre, ¬(m.id = aid ∧ m.isStreaming = some true)) →
        (∀ m ∈ post, ¬(m.id = aid ∧ m.isStreaming = some true)) →
        a.id = aid → a.isStreaming = some true →
        streamEndFallback aid acc ⟨pre ++ a :: post, isS, cid, err⟩
          = ⟨pre ++
              { a with isStreaming := some false,
                       artifacts := some acc.artifacts } :: post,
             isS, cid, err⟩)
    ∧ (∀ (aid : String) (st : ChatState) (em : String),
        (abortUpdate aid st).messages.map Message.artifacts
            = st.messages.map Message.artifacts
        ∧ (errorUpdate aid em st).messages.map Message.artifacts
            = st.messages.map Message.artifacts) := by
  refine ⟨fun aid acc st a0 => rfl,
    fun aid acc st ev acc' st' hterm h =>
      foldEvent_preserves_artifacts aid acc st ev acc' st' hterm h,
    fun aid acc pre post a isS cid err d hpre hpost ha => ?_,
    fun aid acc pre post a isS cid err hpre hpost ha hstr =>
      streamEndFallback_split aid acc pre post a isS cid err hpre hpost ha hstr,
    fun aid st em => ⟨?_, ?_⟩⟩
  · exact ⟨_, _, foldEvent_done_eq aid acc pre post a isS cid err d
      hpre hpost ha, rfl⟩
  · simp only [abortUpdate]
    apply updateMsgs_map_proj
    intro m
    rfl
  · simp only [errorUpdate]
    apply updateMsgs_map_proj
    intro m
    rfl

/-- Witness for C10: a concrete `artifacts` fold stores one book in the
accumulator and leaves the state untouched. -/
theorem claim_C10_witness :
    foldEvent "a1" ⟨"", ⟨[], []⟩, [], none, none⟩
      ⟨[], false, none, none⟩
      (.artifacts ⟨[{ title := "Dune", author := "Herbert" }], []⟩)
      = .ok
        (⟨"", ⟨[{ title := "Dune", author := "Herbert" }], []⟩, [], none, none⟩,
         ⟨[], false, none, none⟩) :=
  claim_C10_artifacts_only_at_terminal.1 "a1" ⟨"", ⟨[], []⟩, [], none, none⟩
    ⟨[], false, none, none⟩ ⟨[{ title := "Dune", author := "Herbert" }], []⟩

/-- C3: folding a `done` event finalizes the placeholder in place — with a
non-empty server `messageId` the message's id becomes exactly that id,
with a non-empty `conversationId` the message's (and the controller's
active) conversation id becomes the event's, the completion metadata
(token counts, executionTimeMs, agentUsed, modelUsed) is captured from the
event, and `isStreaming` becomes `false`; and this is the only path that
assigns an id: no other fold, nor the abort / error / fallback updates,
ever changes any message's id. -/
theorem claim_C3_done_finalizes :
    (∀ (aid : String) (acc : TurnAcc) (pre post : List Message)
        (a : Message) (isS : Bool) (cid err : Option String) (d : DoneData),
      (∀ m ∈ pre, m.id ≠ aid) → (∀ m ∈ post, m.id ≠ aid) → a.id = aid →
      d.messageId ≠ "" → d.conversationId ≠ "" →
      foldEvent aid acc ⟨pre ++ a :: post, isS, cid, err⟩ (.done d)
        = .ok
          ({ acc with
              newConversationId := some d.conversationId,
              finalMessageId := some d.messageId },
           ⟨pre ++
              { a with
                id := d.messageId,
                conversationId := d.conversationId,
                content := acc.fullContent,
                artifacts := some acc.artifacts,
                toolCalls :=
                  if acc.toolCalls.length > 0 then some acc.toolCalls
                  else none,
                isStreaming := some false,
                tokensInput := some d.totalTokens.input,
                tokensOutput := some d.totalTokens.output,
                executionTimeMs := some d.executionTimeMs,
                agentUsed := d.agentUsed,
                modelUsed := d.modelUsed } :: post,
            isS, some d.conversationId, err⟩))
    ∧ (∀ (aid : String) (acc : TurnAcc) (st : ChatState) (ev : SSEEvent)
        (acc' : TurnAcc) (st' : ChatState),
        isDoneEv ev = false →
        foldEvent aid acc st ev = .ok (acc', st') →
        st'.messages.map Message.id = st.messages.map Message.id)
    ∧ (∀ (aid : String) (st : ChatState) (em : String) (acc : TurnAcc),
        (abortUpdate aid st).messages.map Message.id
            = st.messages.map Message.id
        ∧ (errorUpdate aid em st).messages.map Message.id
            = st.messages.map Message.id
        ∧ (streamEndFallback aid acc st).messages.map Message.id
            = st.messages.map Message.id) := by
  refine ⟨?_, fun aid acc st ev acc' st' hev h =>
      foldEvent_preserves_ids aid acc st ev acc' st' hev h,
    fun aid st em acc => ⟨?_, ?_, streamEndFallback_preserves_ids aid acc st⟩⟩
  · intro aid acc pre post a isS cid err d hpre hpost ha hmid hcid
    rw [foldEvent_done_eq aid acc pre post a isS cid err d hpre hpost ha]
    simp [strOr, hmid, hcid]
  · simp only [abortUpdate]
    apply updateMsgs_map_proj
    intro m
    rfl
  · simp only [errorUpdate]
    apply updateMsgs_map_proj
    intro m
    rfl

/-- Witness for C3: a concrete `done` fold replaces the provisional id
with the server id, records the conversation id, captures the metadata and
stops streaming. -/
theorem claim_C3_witness :
    foldEvent "a1" ⟨"Hello", ⟨[], []⟩, [], none, none⟩
      ⟨[{ id := "a1", conversationId := "", role := .assistant,
          content := "Hello", createdAt := 0, isStreaming := some true }],
       true, none, none⟩
      (.done ⟨"m1", "c1", ⟨3, 4⟩, 7, some "librarian", some "gpt"⟩)
      = .ok
        (⟨"Hello", ⟨[], []⟩, [], some "c1", some "m1"⟩,
         ⟨[{ id := "m1", conversationId := "c1", role := .assistant,
             content := "Hello", artifacts := some ⟨[], []⟩, createdAt := 0,
             isStreaming := some false, agentUsed := some "librarian",
             modelUsed := some "gpt", tokensInput := some 3,
             tokensOutput := some 4, executionTimeMs := some 7 }],
          true, some "c1", none⟩) := by
  have h := claim_C3_done_finalizes.1 "a1" ⟨"Hello", ⟨[], []⟩, [], none, none⟩
    [] []
    { id := "a1", conversationId := "", role := .assistant,
      content := "Hello", createdAt := 0, isStreaming := some true }
    true none none ⟨"m1", "c1", ⟨3, 4⟩, 7, some "librarian", some "gpt"⟩
    (by simp) (by simp) rfl (by decide) (by decide)
  simpa using h

/-- A full turn whose stream delivers non-terminal events and then a `done`
event: the history ends with the finalized assistant message, streaming is
off, no error is flagged, and the active conversation id follows the
event's (when truthy). -/
theorem runTurn_done_shape (aid uid : String) (msgs : List Message)
    (isS0 : Bool) (cid err : Option String) (query : String) (now : Nat)
    (evs : List SSEEvent) (d : DoneData)
    (hfresh : ∀ m ∈ msgs, m.id ≠ aid) (huid : uid ≠ aid)
    (hterm : ∀ e ∈ evs, isTerminalEv e = false) :
    ∃ (acc' : TurnAcc) (aD : Message),
      runTurn aid (mkUserMessage uid cid query now)
          (mkAssistantMessage aid cid now)
          ⟨msgs, isS0, cid, err⟩ (.events (evs ++ [.done d]))
        = ⟨(msgs ++ [mkUserMessage uid cid query now]) ++ aD :: [], false,
           (if d.conversationId = "" then cid else some d.conversationId),
           none⟩
      ∧ acc'.fullContent = joinStr (evs.map deltaText)
      ∧ aD.content = acc'.fullContent
      ∧ aD.isStreaming = some false
      ∧ aD.artifacts = some acc'.artifacts
      ∧ aD.id = strOr d.messageId aid
      ∧ aD.tokensInput = some d.totalTokens.input
      ∧ aD.tokensOutput = some d.totalTokens.output
      ∧ aD.executionTimeMs = some d.executionTimeMs
      ∧ aD.agentUsed = d.agentUsed
      ∧ aD.modelUsed = d.modelUsed := by
  obtain ⟨acc', a', heq, hfc, hid, hct, hstr, hpre⟩ :=
    turn_setup aid uid msgs cid query now evs hfresh huid hterm
  have hdone := foldEvent_done_eq aid acc'
    (msgs ++ [mkUserMessage uid cid query now]) [] a' true cid none d
    hpre (by simp) hid
  refine ⟨{ acc' with
      newConversationId := some d.conversationId,
      finalMessageId := some d.messageId },
    { a' with
      id := strOr d.messageId a'.id,
      conversationId := strOr d.conversationId a'.conversationId,
      content := acc'.fullContent,
      artifacts := some acc'.artifacts,
      toolCalls :=
        if acc'.toolCalls.length > 0 then some acc'.toolCalls else none,
      isStreaming := some false,
      tokensInput := some d.totalTokens.input,
      tokensOutput := some d.totalTokens.output,
      executionTimeMs := some d.executionTimeMs,
      agentUsed := d.agentUsed,
      modelUsed := d.modelUsed },
    ?_, hfc, rfl, rfl, rfl, ?_, rfl, rfl, rfl, rfl, rfl⟩
  · simp only [runTurn]
    rw [processEvents_append aid evs [.done d]]
    rw [heq]
    simp only [processEvents]
    rw [hdone]
    simp only
    rw [streamEndFallback_no_match]
    · rfl
    · intro m hm
      rcases List.mem_append.mp hm with h | h
      · intro hcon
        exact hpre m h hcon.1
      · simp only [List.mem_singleton] at h
        subst h
        intro hcon
        simp at hcon
  · simp only
    rw [hid]

/-- A full turn whose stream ends without any terminal event: the fallback
switches the placeholder's streaming flag off and attaches the accumulated
artifacts, preserving the accumulated content; no error is flagged. -/
theorem runTurn_fallback_shape (aid uid : String) (msgs : List Message)
    (isS0 : Bool) (cid err : Option String) (query : String) (now : Nat)
    (evs : List SSEEvent)
    (hfresh : ∀ m ∈ msgs, m.id ≠ aid) (huid : uid ≠ aid)
    (hterm : ∀ e ∈ evs, isTerminalEv e = false) :
    ∃ (acc' : TurnAcc) (aF : Message),
      runTurn aid (mkUserMessage uid cid query now)
          (mkAssistantMessage aid cid now)
          ⟨msgs, isS0, cid, err⟩ (.events evs)
        = ⟨(msgs ++ [mkUserMessage uid cid query now]) ++ aF :: [], false,
           cid, none⟩
      ∧ acc'.fullContent = joinStr (evs.map deltaText)
      ∧ aF.content = acc'.fullContent
      ∧ aF.isStreaming = some false
      ∧ aF.artifacts = some acc'.artifacts := by
  obtain ⟨acc', a', heq, hfc, hid, hct, hstr, hpre⟩ :=
    turn_setup aid uid msgs cid query now evs hfresh huid hterm
  refine ⟨acc',
    { a' with isStreaming := some false, artifacts := some acc'.artifacts },
    ?_, hfc, hct, rfl, rfl⟩
  simp only [runTurn]
  rw [heq]
  simp only
  rw [streamEndFallback_split aid acc'
    (msgs ++ [mkUserMessage uid cid query now]) [] a' true cid none
    (fun m hm hcon => hpre m hm hcon.1) (by simp) hid hstr]
  rfl

/-- A full turn aborted by `stopStreaming` after only non-terminal events:
the placeholder keeps the accumulated content with the literal
`" [stopped]"` suffix, streaming is off, and no error is flagged. -/
theorem runTurn_abort_shape (aid uid : String) (msgs : List Message)
    (isS0 : Bool) (cid err : Option String) (query : String) (now : Nat)
    (evs : List SSEEvent)
    (hfresh : ∀ m ∈ msgs, m.id ≠ aid) (huid : uid ≠ aid)
    (hterm : ∀ e ∈ evs, isTerminalEv e = false) :
    ∃ (acc' : TurnAcc) (aA : Message),
      runTurn aid (mkUserMessage uid cid query now)
          (mkAssistantMessage aid cid now)
          ⟨msgs, isS0, cid, err⟩ (.abortedAfter evs)
        = ⟨(msgs ++ [mkUserMessage uid cid query now]) ++ aA :: [], false,
           cid, none⟩
      ∧ acc'.fullContent = joinStr (evs.map deltaText)
      ∧ aA.content = acc'.fullContent ++ " [stopped]"
      ∧ aA.isStreaming = some false := by
  obtain ⟨acc', a', heq, hfc, hid, hct, hstr, hpre⟩ :=
    turn_setup aid uid msgs cid query now evs hfresh huid hterm
  refine ⟨acc',
    { a' with
      isStreaming := some false,
      content := a'.content ++ " [stopped]" },
    ?_, hfc, ?_, rfl⟩
  · simp only [runTurn]
    rw [heq]
    simp only [abortUpdate]
    rw [updateMsgs_split aid _
      (msgs ++ [mkUserMessage uid cid query now]) [] a' hpre (by simp) hid]
    rfl
  · simp only
    rw [hct]

/-- A full turn that hits an `error` event (after only non-terminal
events; later events of the stream are never folded), or whose transport
fails: the error flag carries the message, the placeholder's content is
replaced by `"Error: " + message`, and streaming is off. -/
theorem runTurn_error_shape (aid uid : String) (msgs : List Message)
    (isS0 : Bool) (cid err : Option String) (query : String) (now : Nat)
    (evs rest : List SSEEvent) (code m0 em : String)
    (hfresh : ∀ m ∈ msgs, m.id ≠ aid) (huid : uid ≠ aid)
    (hterm : ∀ e ∈ evs, isTerminalEv e = false) :
    (∃ aE : Message,
      runTurn aid (mkUserMessage uid cid query now)
          (mkAssistantMessage aid cid now)
          ⟨msgs, isS0, cid, err⟩ (.events (evs ++ .errorEv code m0 :: rest))
        = ⟨(msgs ++ [mkUserMessage uid cid query now]) ++ aE :: [], false,
           cid, some (strOr m0 "Unknown error from server")⟩
      ∧ aE.content = "Error: " ++ strOr m0 "Unknown error from server"
      ∧ aE.isStreaming = some false)
    ∧ (∃ aE : Message,
      runTurn aid (mkUserMessage uid cid query now)
          (mkAssistantMessage aid cid now)
          ⟨msgs, isS0, cid, err⟩ (.failedAfter evs em)
        = ⟨(msgs ++ [mkUserMessage uid cid query now]) ++ aE :: [], false,
           cid, some em⟩
      ∧ aE.content = "Error: " ++ em
      ∧ aE.isStreaming = some false) := by
  obtain ⟨acc', a', heq, hfc, hid, hct, hstr, hpre⟩ :=
    turn_setup aid uid msgs cid query now evs hfresh huid hterm
  constructor
  · refine ⟨{ a' with
      isStreaming := some false,
      content := "Error: " ++ strOr m0 "Unknown error from server" },
      ?_, rfl, rfl⟩
    simp only [runTurn]
    rw [processEvents_append aid evs (.errorEv code m0 :: rest)]
    rw [heq]
    simp only [processEvents, foldEvent]
    simp only [errorUpdate]
    rw [updateMsgs_split aid _
      (msgs ++ [mkUserMessage uid cid query now]) [] a' hpre (by simp) hid]
    rfl
  · refine ⟨{ a' with
      isStreaming := some false,
      content := "Error: " ++ em },
      ?_, rfl, rfl⟩
    simp only [runTurn]
    rw [heq]
    simp only [errorUpdate]
    rw [updateMsgs_split aid _
      (msgs ++ [mkUserMessage uid cid query now]) [] a' hpre (by simp) hid]
    rfl

/-- C2: for every sequence of text-delta events folded during one turn that
ends in normal completion — a `done` event, or the stream ending after the
deltas — the assistant message's final content is exactly the
concatenation of the delta strings in arrival order. -/
theorem claim_C2_content_concat_of_deltas (st : ChatState)
    (query uid aid : String) (now : Nat) (ds : List String) (d : DoneData)
    (hq : jsTrim query ≠ "") (hs : st.isStreaming = false)
    (hfresh : ∀ m ∈ st.messages, m.id ≠ aid) (huid : uid ≠ aid) :
    (lastMsg (sendMessage st query uid aid now
        (.events (ds.map SSEEvent.textDelta ++ [.done d])))).map
        Message.content = some (joinStr ds)
    ∧ (lastMsg (sendMessage st query uid aid now
        (.events (ds.map SSEEvent.textDelta)))).map Message.content
      = some (joinStr ds) := by
  obtain ⟨msgs, isS, cid, err⟩ := st
  simp only at hs hfresh
  subst hs
  have hterm : ∀ e ∈ ds.map SSEEvent.textDelta, isTerminalEv e = false := by
    intro e he
    obtain ⟨x, _, rfl⟩ := List.mem_map.mp he
    rfl
  constructor
  · rw [sendMessage_run _ _ _ _ _ _ hq rfl]
    dsimp only
    obtain ⟨acc', aD, hrun, hfc, hcontent, _⟩ :=
      runTurn_done_shape aid uid msgs false cid err query now
        (ds.map SSEEvent.textDelta) d hfresh huid hterm
    rw [hrun]
    simp only [lastMsg, List.getLast?_concat, Option.map_some']
    rw [hcontent, hfc, joinStr_map_deltaText]
  · rw [sendMessage_run _ _ _ _ _ _ hq rfl]
    dsimp only
    obtain ⟨acc', aF, hrun, hfc, hcontent, _⟩ :=
      runTurn_fallback_shape aid uid msgs false cid err query now
        (ds.map SSEEvent.textDelta) hfresh huid hterm
    rw [hrun]
    simp only [lastMsg, List.getLast?_concat, Option.map_some']
    rw [hcontent, hfc, joinStr_map_deltaText]

/-- Witness for C2: Scenario A — deltas `"Hello"`, `" world"` then `done`
produce content `"Hello world"`; without the `done` the fallback preserves
the same content. -/
theorem claim_C2_witness :
    (lastMsg (sendMessage ⟨[], false, none, none⟩ "Hi" "u1" "a1" 0
        (.events ([ "Hello", " world" ].map SSEEvent.textDelta
          ++ [.done ⟨"m1", "c1", ⟨1, 2⟩, 5, none, none⟩])))).map
        Message.content = some (joinStr ["Hello", " world"])
    ∧ (lastMsg (sendMessage ⟨[], false, none, none⟩ "Hi" "u1" "a1" 0
        (.events (["Hello", " world"].map SSEEvent.textDelta)))).map
        Message.content = some (joinStr ["Hello", " world"]) :=
  claim_C2_content_concat_of_deltas ⟨[], false, none, none⟩ "Hi" "u1" "a1" 0
    ["Hello", " world"] ⟨"m1", "c1", ⟨1, 2⟩, 5, none, none⟩
    (by decide) rfl (by simp) (by decide)

/-- C5 as stated is refuted: if `stopStreaming` aborts the request while
the turn is still in flight but after a `done` event has already been
folded, the assistant message's content does not receive the
`" [stopped]"` suffix (the keyed update no longer matches the finalized
message), contradicting the claim's "regardless" clause. -/
theorem claim_C5_counterexample :
    (lastMsg (sendMessage ⟨[], false, none, none⟩ "Hi" "u1" "a1" 0
        (.abortedAfter [.done ⟨"m1", "c1", ⟨1, 2⟩, 5, none, none⟩]))).map
        Message.content = some ""
    ∧ (lastMsg (sendMessage ⟨[], false, none, none⟩ "Hi" "u1" "a1" 0
        (.abortedAfter [.done ⟨"m1", "c1", ⟨1, 2⟩, 5, none, none⟩]))).map
        Message.content ≠ some " [stopped]" := by
  constructor
  · rfl
  · decide

/-- C5 amended: if `stopStreaming` aborts the turn before any terminal
event has been folded, then regardless of how much content has accumulated
(including zero) the assistant message keeps the accumulated content with
the literal `" [stopped]"` suffix appended, its streaming flag and the
global one are off, and no error is flagged. -/
theorem claim_C5_amended_stop_appends_suffix (st : ChatState)
    (query uid aid : String) (now : Nat) (evs : List SSEEvent)
    (hq : jsTrim query ≠ "") (hs : st.isStreaming = false)
    (hfresh : ∀ m ∈ st.messages, m.id ≠ aid) (huid : uid ≠ aid)
    (hterm : ∀ e ∈ evs, isTerminalEv e = false) :
    (sendMessage st query uid aid now (.abortedAfter evs)).isStreaming = false
    ∧ (sendMessage st query uid aid now (.abortedAfter evs)).error = none
    ∧ (lastMsg (sendMessage st query uid aid now (.abortedAfter evs))).map
        Message.content = some (joinStr (evs.map deltaText) ++ " [stopped]")
    ∧ (lastMsg (sendMessage st query uid aid now (.abortedAfter evs))).map
        Message.isStreaming = some (some false) := by
  obtain ⟨msgs, isS, cid, err⟩ := st
  simp only at hs hfresh
  subst hs
  obtain ⟨acc', aA, hrun, hfc, hcontent, hstream⟩ :=
    runTurn_abort_shape aid uid msgs false cid err query now evs
      hfresh huid hterm
  rw [sendMessage_run _ _ _ _ _ _ hq rfl]
  dsimp only
  rw [hrun]
  refine ⟨rfl, rfl, ?_, ?_⟩
  · simp only [lastMsg, List.getLast?_concat, Option.map_some']
    rw [hcontent, hfc]
  · simp only [lastMsg, List.getLast?_concat, Option.map_some']
    rw [hstream]

/-- Witness for the amended C5: Scenario E — stop after `text-delta("draf")`
yields content `"draf [stopped]"`, streaming off, no error. -/
theorem claim_C5_amended_witness :
    (sendMessage ⟨[], false, none, none⟩ "Hi" "u1" "a1" 0
        (.abortedAfter [.textDelta "draf"])).isStreaming = false
    ∧ (sendMessage ⟨[], false, none, none⟩ "Hi" "u1" "a1" 0
        (.abortedAfter [.textDelta "draf"])).error = none
    ∧ (lastMsg (sendMessage ⟨[], false, none, none⟩ "Hi" "u1" "a1" 0
        (.abortedAfter [.textDelta "draf"]))).map Message.content
      = some (joinStr (([.textDelta "draf"] : List SSEEvent).map deltaText)
          ++ " [stopped]")
    ∧ (lastMsg (sendMessage ⟨[], false, none, none⟩ "Hi" "u1" "a1" 0
        (.abortedAfter [.textDelta "draf"]))).map Message.isStreaming
      = some (some false) :=
  claim_C5_amended_stop_appends_suffix ⟨[], false, none, none⟩ "Hi" "u1" "a1"
    0 [.textDelta "draf"] (by decide) rfl (by simp) (by decide)
    (by intro e he; simp only [List.mem_singleton] at he; subst he; rfl)

/-- C6: when an `error` event carrying a non-empty message `m` is folded
(after only non-terminal events), or the transport fails with message `m`
for a reason other than a user abort, the assistant message's content is
replaced with `"Error: " + m`, the separate error-state field is set to
`m`, and streaming is off (on the message and globally). -/
theorem claim_C6_error_sets_flag_and_content (st : ChatState)
    (query uid aid : String) (now : Nat) (evs rest : List SSEEvent)
    (code m0 em : String)
    (hq : jsTrim query ≠ "") (hs : st.isStreaming = false)
    (hfresh : ∀ m ∈ st.messages, m.id ≠ aid) (huid : uid ≠ aid)
    (hterm : ∀ e ∈ evs, isTerminalEv e = false) (hm : m0 ≠ "") :
    ((sendMessage st query uid aid now
        (.events (evs ++ .errorEv code m0 :: rest))).error = some m0
      ∧ (sendMessage st query uid aid now
          (.events (evs ++ .errorEv code m0 :: rest))).isStreaming = false
      ∧ (lastMsg (sendMessage st query uid aid now
          (.events (evs ++ .errorEv code m0 :: rest)))).map Message.content
        = some ("Error: " ++ m0)
      ∧ (lastMsg (sendMessage st query uid aid now
          (.events (evs ++ .errorEv code m0 :: rest)))).map
          Message.isStreaming = some (some false))
    ∧ ((sendMessage st query uid aid now (.failedAfter evs em)).error
        = some em
      ∧ (sendMessage st query uid aid now
          (.failedAfter evs em)).isStreaming = false
      ∧ (lastMsg (sendMessage st query uid aid now
          (.failedAfter evs em))).map Message.content
        = some ("Error: " ++ em)
      ∧ (lastMsg (sendMessage st query uid aid now
          (.failedAfter evs em))).map Message.isStreaming
        = some (some false)) := by
  obtain ⟨msgs, isS, cid, err⟩ := st
  simp only at hs hfresh
  subst hs
  obtain ⟨⟨aE, hrunE, hcontE, hstreamE⟩, ⟨aF, hrunF, hcontF, hstreamF⟩⟩ :=
    runTurn_error_shape aid uid msgs false cid err query now evs rest
      code m0 em hfresh huid hterm
  have hstrOr : strOr m0 "Unknown error from server" = m0 := by
    simp [strOr, hm]
  rw [hstrOr] at hrunE hcontE
  constructor
  · rw [sendMessage_run _ _ _ _ _ _ hq rfl]
    dsimp only
    rw [hrunE]
    refine ⟨rfl, rfl, ?_, ?_⟩
    · simp only [lastMsg, List.getLast?_concat, Option.map_some']
      rw [hcontE]
    · simp only [lastMsg, List.getLast?_concat, Option.map_some']
      rw [hstreamE]
  · rw [sendMessage_run _ _ _ _ _ _ hq rfl]
    dsimp only
    rw [hrunF]
    refine ⟨rfl, rfl, ?_, ?_⟩
    · simp only [lastMsg, List.getLast?_concat, Option.map_some']
      rw [hcontF]
    · simp only [lastMsg, List.getLast?_concat, Option.map_some']
      rw [hstreamF]

/-- Witness for C6: Scenario D — `error(message="rate limited")` yields
content `"Error: rate limited"`, error flag `"rate limited"`, streaming
off; a transport failure `"network down"` behaves alike. -/
theorem claim_C6_witness :
    ((sendMessage ⟨[], false, none, none⟩ "Hi" "u1" "a1" 0
        (.events ([] ++ .errorEv "RATE_LIMIT" "rate limited" :: []))).error
        = some "rate limited"
      ∧ (sendMessage ⟨[], false, none, none⟩ "Hi" "u1" "a1" 0
          (.events ([] ++ .errorEv "RATE_LIMIT" "rate limited" :: []))).isStreaming
        = false
      ∧ (lastMsg (sendMessage ⟨[], false, none, none⟩ "Hi" "u1" "a1" 0
          (.events ([] ++ .errorEv "RATE_LIMIT" "rate limited" :: [])))).map
          Message.content = some ("Error: " ++ "rate limited")
      ∧ (lastMsg (sendMessage ⟨[], false, none, none⟩ "Hi" "u1" "a1" 0
          (.events ([] ++ .errorEv "RATE_LIMIT" "rate limited" :: [])))).map
          Message.isStreaming = some (some false))
    ∧ ((sendMessage ⟨[], false, none, none⟩ "Hi" "u1" "a1" 0
          (.failedAfter [] "network down")).error = some "network down"
      ∧ (sendMessage ⟨[], false, none, none⟩ "Hi" "u1" "a1" 0
          (.failedAfter [] "network down")).isStreaming = false
      ∧ (lastMsg (sendMessage ⟨[], false, none, none⟩ "Hi" "u1" "a1" 0
          (.failedAfter [] "network down"))).map Message.content
        = some ("Error: " ++ "network down")
      ∧ (lastMsg (sendMessage ⟨[], false, none, none⟩ "Hi" "u1" "a1" 0
          (.failedAfter [] "network down"))).map Message.isStreaming
        = some (some false)) :=
  claim_C6_error_sets_flag_and_content ⟨[], false, none, none⟩ "Hi" "u1"
    "a1" 0 [] [] "RATE_LIMIT" "rate limited" "network down"
    (by decide) rfl (by simp) (by decide) (by simp) (by decide)
